import Mathlib

/-!
Shallow embedding of `ember-array-observers` (src/addon/index.js) and proofs
about its spec.  JS arrays are modelled as `List α`; Ember array methods
(`pushObject`, `removeObject`, `forEach`, `find`, `slice`) are embedded with
their Ember/JS semantics, including the live iteration of `forEach` (length
captured at loop start, elements read from the current array) and the JS
truthiness test applied to the result of `find` (`!arr.find(p)` is true when
nothing is found OR the found element is falsy).  Since element types here are
`Nat`/`String`, JS truthiness is passed in explicitly (`0` and `""` are falsy).
-/

namespace EmberArrayObservers

/-- JS truthiness for `Nat`-encoded values: `0` is falsy. -/
def natTruthy (n : Nat) : Bool := n != 0

/-- JS truthiness for `String`-encoded values: `""` is falsy. -/
def strTruthy (s : String) : Bool := s != ""

/-- The default comparator of `mergeArrays`: `function(a, b) { return a === b; }`. -/
def strictEq {α : Type} [BEq α] (a b : α) : Bool := a == b

/-- Embeds the JS truthiness of `arr.find(p)`: the call is truthy iff some
element satisfies `p` and the first such element is itself truthy.  The source
only ever tests `!original.find(...)` / `!update.find(...)`, i.e. the negation
of this. -/
def jsTruthyFind {α : Type} (l : List α) (p : α → Bool) (truthy : α → Bool) : Bool :=
  match l.find? p with
  | none => false
  | some x => truthy x

/-- Ember's `removeObject(obj)`: scans the whole array and removes every
element `===`-equal to `obj`, preserving the order of the rest. -/
def removeObject {α : Type} [BEq α] (l : List α) (x : α) : List α :=
  l.filter (fun y => !(y == x))

/-- The first pass of `mergeArrays`: `update.forEach((item) => { if
(!original.find(comparator.bind(this, item))) original.pushObject(item) })`.
`update` is never mutated, so this is a fold over `update`; the `find` runs
against the current (growing) `original`, and `pushObject` appends. -/
def mergeAppendPass {α : Type} (original update : List α)
    (cmp : α → α → Bool) (truthy : α → Bool) : List α :=
  update.foldl
    (fun acc item =>
      if jsTruthyFind acc (fun x => cmp item x) truthy then acc else acc ++ [item])
    original

/-- The second pass of `mergeArrays`: `original.forEach((item) => { if
(!update.find(comparator.bind(this, item))) original.removeObject(item) })`.
Ember's `forEach` captures `len = original.length` once, then reads
`objectAt(idx)` from the live array at each step, so removals shift later
elements down and out-of-range reads yield `undefined` (here: `none`), for
which `update.find` fails (update arrays hold no `undefined`) and
`removeObject(undefined)` is a no-op.  `fuel` counts the remaining iterations
of the captured length. -/
def mergeRemovalLoop {α : Type} [BEq α] (update : List α)
    (cmp : α → α → Bool) (truthy : α → Bool) :
    Nat → Nat → List α → List α
  | 0, _, cur => cur
  | fuel + 1, idx, cur =>
    match cur.get? idx with
    | none => mergeRemovalLoop update cmp truthy fuel (idx + 1) cur
    | some item =>
      if jsTruthyFind update (fun x => cmp item x) truthy then
        mergeRemovalLoop update cmp truthy fuel (idx + 1) cur
      else
        mergeRemovalLoop update cmp truthy fuel (idx + 1) (removeObject cur item)

/-- Embeds `mergeArrays(original, update, comparator)`, src/addon/index.js lines
175-188: append every update item that has no truthy match in `original`, then
walk `original` (live, with its length captured before the walk) removing every
item that has no truthy match in `update`; return `original`. -/
def mergeArrays {α : Type} [BEq α] (original update : List α)
    (cmp : α → α → Bool) (truthy : α → Bool) : List α :=
  let afterAppend := mergeAppendPass original update cmp truthy
  mergeRemovalLoop update cmp truthy afterAppend.length 0 afterAppend

/-- Specialization of `mergeArrays` to the default comparator on `Nat` elements. -/
def mergeArraysNat (original update : List Nat) : List Nat :=
  mergeArrays original update strictEq natTruthy

/-- Specialization of `mergeArrays` to the default comparator on `String` elements. -/
def mergeArraysStr (original update : List String) : List String :=
  mergeArrays original update strictEq strTruthy

/-! ## joinedArray (src/addon/index.js lines 206-246) -/

/-- Structural worker for `jsSplit`: scans the remaining characters, cutting a
field whenever the separator occurs.  `fuel` bounds the recursion so the
definition is structural and evaluates in the kernel; `jsSplit` supplies enough
fuel that the first branch is never reached for a non-empty separator. -/
def jsSplitLoop (sep : List Char) : Nat → List Char → List Char → List String
  | 0, rem, acc => [String.mk (acc.reverse ++ rem)]
  | fuel + 1, rem, acc =>
    match rem with
    | [] => [String.mk acc.reverse]
    | c :: rest =>
      if (c :: rest).take sep.length = sep then
        String.mk acc.reverse :: jsSplitLoop sep fuel ((c :: rest).drop sep.length) []
      else
        jsSplitLoop sep fuel rest (c :: acc)

/-- JS `value.split(separator)` for a non-empty separator: splits the string at
every occurrence of the separator, keeping empty fields. -/
def jsSplit (value sep : String) : List String :=
  jsSplitLoop sep.toList (value.toList.length + 1) value.toList []

/-- The `newItems` computation of `joinedArray`'s setter: `""` yields `[]`, a
non-empty string is split on the separator, an absent value yields the cached
default. -/
def newItemsOf (sep : String) (value : Option String) (defaultValue : List String) :
    List String :=
  match value with
  | some v => if v = "" then [] else jsSplit v sep
  | none => defaultValue

/-- The tail of `joinedArray`'s setter, parameterised by the merge function as
the source is: `let result = mergeFn.call(this, oldItems, newItems); return
result.join(separator);`.  Returns the post-merge array together with the
setter's return value. -/
def joinedSetWith (mergeFn : List String → List String → List String)
    (sep : String) (oldItems : List String) (value : Option String)
    (defaultValue : List String) : List String × String :=
  let newItems := newItemsOf sep value defaultValue
  let result := mergeFn oldItems newItems
  (result, String.intercalate sep result)

/-- The setter of `joinedArray` with the default merge function (`mergeArrays`). -/
def joinedSet (sep : String) (oldItems : List String) (value : Option String)
    (defaultValue : List String) : List String × String :=
  joinedSetWith mergeArraysStr sep oldItems value defaultValue

/-- The return value of `joinedArray`'s getter: `return value &&
value.join(separator)` — absent stays absent, an array is joined. -/
def joinedGet (sep : String) : Option (List String) → Option String
  | none => none
  | some l => some (String.intercalate sep l)

/-! ## arrayMemberObserver: single-mutation dispatch (src/addon/index.js lines 109-124)

Ember's array-observer contract invokes `arrayWillChange(array, start,
removedCount, addedCount)` on the pre-mutation array before the mutation and
`arrayDidChange(array, start, removedCount, addedCount)` on the post-mutation
array after it, so the notifications of one mutation are the `willChange`
handler's output followed by the `didChange` handler's output. -/

/-- One callback invocation emitted to the user's observers: either
`observers.removed` or `observers.added`, recording the arguments passed
(`index = none` when the call site passes only the element). -/
inductive Notification (α : Type) : Type
  | removed (item : α) (index : Option Nat)
  | added (item : α) (index : Option Nat)
  deriving DecidableEq, Repr

/-- Whether a notification is a `removed` callback invocation. -/
def Notification.isRemoved {α : Type} : Notification α → Bool
  | .removed _ _ => true
  | .added _ _ => false

/-- Whether a notification is an `added` callback invocation. -/
def Notification.isAdded {α : Type} : Notification α → Bool
  | .removed _ _ => false
  | .added _ _ => true

/-- JS `arr.slice(start, end)` for in-range `Nat` bounds: the elements at
indices `[start, end)`, clamped to the array. -/
def jsSlice {α : Type} (l : List α) (start stop : Nat) : List α :=
  (l.drop start).take (stop - start)

/-- Embeds `slice.forEach((item, i) => observers.removed.call(this, item, i + start))`:
one `removed` notification per slice element, indices counting up from
`base = start`. -/
def emitRemoved {α : Type} : List α → Nat → List (Notification α)
  | [], _ => []
  | item :: rest, base => .removed item (some base) :: emitRemoved rest (base + 1)

/-- Embeds `slice.forEach((item, i) => observers.added.call(this, item, i + start))`:
one `added` notification per slice element, indices counting up from
`base = start`. -/
def emitAdded {α : Type} : List α → Nat → List (Notification α)
  | [], _ => []
  | item :: rest, base => .added item (some base) :: emitAdded rest (base + 1)

/-- The `arrayWillChange` handler (lines 110-116): when `removedCount > 0` and
a `removed` observer was supplied, emit `removed` for
`array.slice(start, start + removedCount)` with indices `i + start`. -/
def arrayWillChange {α : Type} (array : List α) (start removedCount : Nat)
    (hasRemoved : Bool) : List (Notification α) :=
  if removedCount > 0 && hasRemoved then
    emitRemoved (jsSlice array start (start + removedCount)) start
  else []

/-- The `arrayDidChange` handler (lines 117-123): when `addedCount > 0` and an
`added` observer was supplied, emit `added` for
`array.slice(start, start + addedCount)` with indices `i + start`. -/
def arrayDidChange {α : Type} (array : List α) (start removedCount addedCount : Nat)
    (hasAdded : Bool) : List (Notification α) :=
  let _ := removedCount
  if addedCount > 0 && hasAdded then
    emitAdded (jsSlice array start (start + addedCount)) start
  else []

/-- All notifications of one content mutation of the observed array, with both
observers supplied: `arrayWillChange` on the pre-mutation array, then
`arrayDidChange` on the post-mutation array. -/
def singleMutationEvents {α : Type} (pre post : List α)
    (start removedCount addedCount : Nat) : List (Notification α) :=
  arrayWillChange pre start removedCount true ++
    arrayDidChange post start removedCount addedCount true

/-! ### Second-variant handlers (src/addon/index.js lines 280-288)

The second variant declares `arrayWillChange(array, start, addedCount,
removedCount)` and `arrayDidChange(array, start, addedCount)`, but Ember passes
`(array, start, removedCount, addedCount)` to both positionally; its `slice`
calls also pass the count as the *end index* (`array.slice(start,
removedCount)`), and its `forEach(observers.removed.bind(this))` passes the
slice-local index. -/

/-- Second variant `arrayWillChange` with the source's own (swapped) binder
names: emits `removed` for `array.slice(start, removedCount)`. -/
def arrayWillChangeV2 {α : Type} (array : List α)
    (start addedCount removedCount : Nat) : List (Notification α) :=
  let _ := addedCount
  emitRemoved (jsSlice array start removedCount) 0

/-- Second variant `arrayDidChange` with the source's own binder names: emits
`added` for `array.slice(start, addedCount)`. -/
def arrayDidChangeV2 {α : Type} (array : List α)
    (start addedCount : Nat) : List (Notification α) :=
  emitAdded (jsSlice array start addedCount) 0

/-- All notifications of one mutation under the second variant.  Ember invokes
both hooks positionally with `(array, start, removedCount, addedCount)`, so the
variant's third binder (`addedCount`) receives the actual removed count and its
fourth (`removedCount`) the actual added count. -/
def singleMutationEventsV2 {α : Type} (pre post : List α)
    (start removedCount addedCount : Nat) : List (Notification α) :=
  arrayWillChangeV2 pre start removedCount addedCount ++
    arrayDidChangeV2 post start removedCount

/-! ## arrayMemberObserver: attach and replacement (src/addon/index.js lines 84-136) -/

/-- An array value held by the dependent key: a reference identity plus its
current contents. -/
structure ArrVal (α : Type) : Type where
  ref : Nat
  elems : List α
  deriving DecidableEq, Repr

/-- The observable steps of `observeDependentArray`, in execution order: the
no-argument `previousArray.removeArrayObserver()` call on an array reference,
the invocations of the user's `removed` / `added` callbacks with the arguments
passed (`index = none` when the call site passes only the element), and the
`addArrayObserver` registration, which carries the identity of the fresh
object literal passed as the observer target (lines 109-124 build a new
literal on every call, and nothing retains it). -/
inductive ObsEvent (α : Type) : Type
  | removeObserverCall (ref : Nat)
  | removedCb (item : α) (index : Option Nat)
  | addedCb (item : α) (index : Option Nat)
  | register (ref : Nat) (target : Nat)
  deriving DecidableEq, Repr

/-- Whether an event is `addArrayObserver`. -/
def ObsEvent.isRegister {α : Type} : ObsEvent α → Bool
  | .register _ _ => true
  | _ => false

/-- Whether an event is an `observers.added` invocation. -/
def ObsEvent.isAddedCb {α : Type} : ObsEvent α → Bool
  | .addedCb _ _ => true
  | _ => false

/-- Embeds `previousArray.map(observers.removed.bind(this))` (line 99): JS `map`
passes `(item, index, array)`, so each former element produces a `removed`
invocation carrying its index. -/
def emitRemovedCbs {α : Type} : List α → Nat → List (ObsEvent α)
  | [], _ => []
  | x :: rest, i => .removedCb x (some i) :: emitRemovedCbs rest (i + 1)

/-- Embeds `this.get(dependentArrayKey).forEach((member) => {
observers.added.call(this, member) })` (lines 105-107): each element produces
an `added` invocation carrying only the element. -/
def emitAddedCbs {α : Type} (l : List α) : List (ObsEvent α) :=
  l.map (fun m => .addedCb m none)

/-- Embeds `observeDependentArray` (lines 91-126): given the tracked `previousArray`
and the current value of the dependent key (`none` when the key holds a
non-array, which is ignored), returns the newly tracked array and the events in
execution order: `previousArray.removeArrayObserver()` — called with no
arguments, line 97 — then `removed` per former element when a `removed`
observer was supplied, then `added` per element of the current array, then
`addArrayObserver` on the current array with `freshTarget`, the identity of
the object literal built for this call (lines 109-124). -/
def observeDependentArray {α : Type} (previousArray : Option (ArrVal α))
    (current : Option (ArrVal α)) (hasRemoved : Bool) (freshTarget : Nat) :
    Option (ArrVal α) × List (ObsEvent α) :=
  match current with
  | none => (previousArray, [])
  | some cur =>
    let teardown :=
      match previousArray with
      | none => []
      | some p =>
        .removeObserverCall p.ref ::
          (if hasRemoved then emitRemovedCbs p.elems 0 else [])
    (some cur,
      teardown ++ emitAddedCbs cur.elems ++ [.register cur.ref freshTarget])

/-- The array-observer hooks currently registered, as pairs of the observed
array's reference and the target the registration carried, folded over the
events per Ember's listener semantics: `addArrayObserver(target)` stores the
listener under that target (here always a fresh object literal, `some t`);
`removeArrayObserver(target, opts)` removes only a listener whose stored
target matches the argument, and the source's no-argument call passes
`undefined`, which Ember defaults to the null target — so it can only remove a
hook that was registered without a target (`none`), and every hook here was
registered with one.  Callback invocations change nothing. -/
def applyEvents {α : Type} (hooks : List (Nat × Option Nat)) :
    List (ObsEvent α) → List (Nat × Option Nat)
  | [] => hooks
  | .removeObserverCall r :: rest =>
    applyEvents (hooks.filter (fun h => !(h.1 == r && h.2 == none))) rest
  | .register r t :: rest => applyEvents (hooks ++ [(r, some t)]) rest
  | .removedCb _ _ :: rest => applyEvents hooks rest
  | .addedCb _ _ :: rest => applyEvents hooks rest

/-! ## nestedArrayObserver (src/addon/index.js lines 33-71 and 252-273) -/

/-- A cache entry of the primary `nestedArrayObserver` (lines 47-51): the owner
instance, the inner-array reference, and the identity of the bound observer
function created for it (`observerFn.bind(this, nestedArray)` yields a fresh
function object per attach). -/
structure CacheEntry : Type where
  parent : Nat
  target : Nat
  observerId : Nat
  deriving DecidableEq, Repr

/-- A cache entry of the second variant (lines 260-263), which records no owner. -/
structure CacheEntryV2 : Type where
  target : Nat
  observerId : Nat
  deriving DecidableEq, Repr

/-- Observable steps of the nested observer's callbacks: registering or
deregistering a bound function as a `'[]'` content observer on an inner array,
and invoking a bound function. -/
inductive NestedEvent : Type
  | register (target observerId : Nat)
  | invoke (observerId : Nat)
  | deregister (target observerId : Nat)
  deriving DecidableEq, Repr

/-- Whether a nested-observer event is a bound-function invocation. -/
def NestedEvent.isInvoke : NestedEvent → Bool
  | .invoke _ => true
  | _ => false

/-- Whether a nested-observer event is an `addObserver` registration. -/
def NestedEvent.isRegister : NestedEvent → Bool
  | .register _ _ => true
  | _ => false

/-- The primary `added` callback (lines 44-60): record the cache entry, attach
the bound observer on the inner array, then immediately invoke it once.
`freshObserverId` is the identity of the freshly bound function. -/
def nestedAdded (cache : List CacheEntry) (self target freshObserverId : Nat) :
    List CacheEntry × List NestedEvent :=
  let cached : CacheEntry := ⟨self, target, freshObserverId⟩
  (cache ++ [cached],
    [.register target freshObserverId, .invoke freshObserverId])

/-- The primary `removed` callback (lines 61-69): look up the entry whose
`target` and `parent` both match; when found, deregister its observer and drop
the entry (`removeObject` drops every value-identical entry); when not found,
the `if (cached)` guard makes the whole callback a no-op.  The `Except` records
that the callback can raise no error. -/
def nestedRemoved (cache : List CacheEntry) (self target : Nat) :
    Except String (List CacheEntry × List NestedEvent) :=
  match cache.find? (fun item => item.target == target && item.parent == self) with
  | some cached =>
    .ok (cache.filter (fun e => !(e == cached)),
      [.deregister target cached.observerId])
  | none => .ok (cache, [])

/-- The second variant's `added` callback (lines 259-266): record the entry and
attach the bound observer — it never invokes the bound function. -/
def nestedAddedV2 (cache : List CacheEntryV2) (target freshObserverId : Nat) :
    List CacheEntryV2 × List NestedEvent :=
  (cache ++ [⟨target, freshObserverId⟩], [.register target freshObserverId])

/-- The second variant's `removed` callback (lines 267-271): looks up by target
only and dereferences `cached.observer` without a guard, so a missing entry is
a TypeError. -/
def nestedRemovedV2 (cache : List CacheEntryV2) (target : Nat) :
    Except String (List CacheEntryV2 × List NestedEvent) :=
  match cache.find? (fun item => item.target == target) with
  | some cached =>
    .ok (cache.filter (fun e => !(e == cached)),
      [.deregister target cached.observerId])
  | none => .error "TypeError: cached is undefined"

/-! ## instanceScoped and mergedArray (src/addon/index.js lines 18-22, 148-161)

`instanceScoped(key, factory)` registers an `on('init')` hook that runs
`Ember.defineProperty(this, key, factory())` once per instance, so each
instance gets its own run of the factory and therefore its own closure state.
`mergedArray`'s factory is `let source = Ember.A(); return computed({ get() {
return source; }, set(key, update) { return mergeFn(source, update); } })`. -/

/-- The class-wide state of one `mergedArray` property: each initialized owner
instance holds an entry `(instanceId, sourceRef, elems)` where `sourceRef`
identifies the `Ember.A()` array allocated by that instance's factory run;
`nextRef` allocates fresh array references. -/
structure MergedState : Type where
  sources : List (Nat × Nat × List Nat)
  nextRef : Nat
  deriving DecidableEq, Repr

/-- One `on('init')` run of `instanceScoped`'s hook for instance `i`: the
factory allocates a fresh empty array and installs the accessor closing over it
on that instance. -/
def mergedInit (s : MergedState) (i : Nat) : MergedState :=
  ⟨s.sources ++ [(i, s.nextRef, [])], s.nextRef + 1⟩

/-- The `get()` of the `mergedArray` property on instance `i`: that instance's
`source` (reference and contents); `none` when the instance was never
initialized. -/
def mergedGet (s : MergedState) (i : Nat) : Option (Nat × List Nat) :=
  (s.sources.find? (fun e => e.1 == i)).map (fun e => e.2)

/-- The `set(key, update)` of the `mergedArray` property on instance `i` with the
default merge function: `mergeFn(source, update)` mutates that instance's
`source` in place, leaving every other entry untouched. -/
def mergedSet (s : MergedState) (i : Nat) (update : List Nat) : MergedState :=
  ⟨s.sources.map (fun e =>
      if e.1 == i then (e.1, e.2.1, mergeArraysNat e.2.2 update) else e),
    s.nextRef⟩

/-- The operations run against a class carrying a `mergedArray` property. -/
inductive MergedOp : Type
  | init (i : Nat)
  | set (i : Nat) (update : List Nat)
  deriving DecidableEq, Repr

/-- Run a sequence of instance initializations and sets. -/
def mergedRun : MergedState → List MergedOp → MergedState
  | s, [] => s
  | s, .init i :: rest => mergedRun (mergedInit s i) rest
  | s, .set i u :: rest => mergedRun (mergedSet s i u) rest

/-- The state of a class none of whose instances has initialized yet. -/
def mergedState0 : MergedState := ⟨[], 0⟩

/-- Allocation invariant of `MergedState`: every allocated source reference is
below the allocator, and no two entries share a source reference. -/
def MergedInv (s : MergedState) : Prop :=
  (∀ e ∈ s.sources, e.2.1 < s.nextRef) ∧
    s.sources.Pairwise (fun a b => a.2.1 ≠ b.2.1)

/-! ## joinedArray closure state (src/addon/index.js lines 206-246)

`joinedArray` returns a plain `computed` definition — it is not wrapped in
`instanceScoped` — so the `let defaultValue` in its closure is created once per
property definition and shared by every owner instance of the class using it. -/

/-- The class-wide state of one `joinedArray` property definition:
`defaultValue` is the shared closure variable (a reference to the captured
array, `none` while unassigned — arrays are truthy in JS, so the source's
falsiness guard `if (!defaultValue)` is exactly `isNone` here); `arrays` is the
heap of array references; `deps` maps an instance to the array reference its
dependent key currently holds (`none` when absent). -/
structure JoinedState : Type where
  defaultValue : Option Nat
  arrays : List (Nat × List String)
  deps : List (Nat × Option Nat)
  nextRef : Nat
  deriving DecidableEq, Repr

/-- The contents of array reference `r` (empty when unknown). -/
def lookupArr (s : JoinedState) (r : Nat) : List String :=
  ((s.arrays.find? (fun e => e.1 == r)).map (fun e => e.2)).getD []

/-- Embeds `this.get(dependentArrayKey)` for instance `i`. -/
def lookupDep (s : JoinedState) (i : Nat) : Option Nat :=
  ((s.deps.find? (fun e => e.1 == i)).map (fun e => e.2)).getD none

/-- Embeds `if (!defaultValue) { defaultValue = this.get(dependentArrayKey) || []; }`
(lines 215-217 and 225-227), run by both accessors: once assigned (always an
array, hence truthy) the guard never fires again; a first run captures the
instance's current array reference, or allocates a fresh empty array when the
key is absent.  Returns the state and the reference `defaultValue` now holds. -/
def captureDefault (s : JoinedState) (i : Nat) : JoinedState × Nat :=
  match s.defaultValue with
  | some r => (s, r)
  | none =>
    match lookupDep s i with
    | some r => ({ s with defaultValue := some r }, r)
    | none =>
      ({ s with
          defaultValue := some s.nextRef,
          arrays := s.arrays ++ [(s.nextRef, [])],
          nextRef := s.nextRef + 1 }, s.nextRef)

/-- Where the setter's `newItems` array came from (lines 231-241). -/
inductive UpdateSource : Type
  | emptyString
  | split (value : String)
  | cachedDefault (ref : Nat)
  deriving DecidableEq, Repr

/-- The observable effect the claim tracks: each `set` performs one
`mergeFn.call(this, oldItems, newItems)`, recorded with its update source. -/
inductive JoinedEvent : Type
  | mergeCall (src : UpdateSource)
  deriving DecidableEq, Repr

/-- Accessor operations executed against the class, by any instance. -/
inductive JoinedOp : Type
  | get (i : Nat)
  | set (i : Nat) (value : Option String)
  deriving DecidableEq, Repr

/-- One accessor run of the `joinedArray` property.  `get` only runs the
default capture (its return value has no bearing on the closure state).  `set`
runs the capture, computes `newItems` (empty for `""`, a split for a non-empty
string, the cached default for an absent value), and merges the instance's
array in place with the default merge function.  When the dependent key is
absent, JS `mergeArrays(undefined, ...)` would throw; the heap is left
unchanged here since the claim concerns only the recorded merge source and the
shared default. -/
def joinedStep (sep : String) (s : JoinedState) :
    JoinedOp → JoinedState × List JoinedEvent
  | .get i => ((captureDefault s i).1, [])
  | .set i value =>
    let s1 := (captureDefault s i).1
    let dflt := (captureDefault s i).2
    let src :=
      match value with
      | some v => if v = "" then UpdateSource.emptyString else UpdateSource.split v
      | none => UpdateSource.cachedDefault dflt
    let newItems :=
      match src with
      | .emptyString => []
      | .split v => jsSplit v sep
      | .cachedDefault r => lookupArr s1 r
    match lookupDep s1 i with
    | some oref =>
      ({ s1 with
          arrays := s1.arrays.map (fun e =>
            if e.1 == oref then (e.1, mergeArraysStr e.2 newItems) else e) },
        [.mergeCall src])
    | none => (s1, [.mergeCall src])

/-! ## Helper lemmas -/

/-- In `A ++ B` where no element of `A` satisfies `q` and no element of `B`
satisfies `p`, every index satisfying `p` precedes every index satisfying
`q`. -/
theorem index_lt_of_append {α : Type} (p q : α → Bool) (A B : List α)
    (hA : ∀ x ∈ A, q x = false) (hB : ∀ x ∈ B, p x = false) (i j : Nat)
    (hi : i < (A ++ B).length) (hj : j < (A ++ B).length)
    (hpi : p ((A ++ B)[i]) = true) (hqj : q ((A ++ B)[j]) = true) : i < j := by
  have hiA : i < A.length := by
    by_contra hle
    push_neg at hle
    have hiB : i - A.length < B.length := by
      simp [List.length_append] at hi
      omega
    have : (A ++ B)[i] = B[i - A.length] := by
      rw [List.getElem_append_right]; omega
    rw [this] at hpi
    have := hB _ (List.getElem_mem hiB)
    simp [this] at hpi
  have hjA : A.length ≤ j := by
    by_contra hlt
    push_neg at hlt
    have : (A ++ B)[j] = A[j] := List.getElem_append_left hlt
    rw [this] at hqj
    have := hA _ (List.getElem_mem hlt)
    simp [this] at hqj
  omega

/-- Every notification produced by `emitRemoved` is a `removed` invocation. -/
theorem emitRemoved_isRemoved {α : Type} (l : List α) (b : Nat) :
    ∀ x ∈ emitRemoved l b, x.isRemoved = true := by
  induction l generalizing b with
  | nil => simp [emitRemoved]
  | cons a rest ih =>
    intro x hx
    simp only [emitRemoved, List.mem_cons] at hx
    rcases hx with h | h
    · simp [h, Notification.isRemoved]
    · exact ih (b + 1) x h

/-- Every notification produced by `emitAdded` is an `added` invocation. -/
theorem emitAdded_isAdded {α : Type} (l : List α) (b : Nat) :
    ∀ x ∈ emitAdded l b, x.isAdded = true := by
  induction l generalizing b with
  | nil => simp [emitAdded]
  | cons a rest ih =>
    intro x hx
    simp only [emitAdded, List.mem_cons] at hx
    rcases hx with h | h
    · simp [h, Notification.isAdded]
    · exact ih (b + 1) x h

/-- A `removed` invocation is not an `added` invocation and vice versa. -/
theorem isAdded_eq_not_isRemoved {α : Type} (x : Notification α) :
    x.isAdded = !x.isRemoved := by
  cases x <;> rfl

/-- The handler `arrayWillChange` always emits exactly the `removed` notifications of the
pre-mutation slice, because an empty removed count yields an empty slice. -/
theorem arrayWillChange_eq {α : Type} (array : List α) (start rc : Nat) :
    arrayWillChange array start rc true =
      emitRemoved (jsSlice array start (start + rc)) start := by
  unfold arrayWillChange
  rcases Nat.eq_zero_or_pos rc with h | h
  · subst h
    simp [jsSlice, emitRemoved]
  · simp [h]

/-- The handler `arrayDidChange` always emits exactly the `added` notifications of the
post-mutation slice. -/
theorem arrayDidChange_eq {α : Type} (array : List α) (start rc ac : Nat) :
    arrayDidChange array start rc ac true =
      emitAdded (jsSlice array start (start + ac)) start := by
  unfold arrayDidChange
  rcases Nat.eq_zero_or_pos ac with h | h
  · subst h
    simp [jsSlice, emitAdded]
  · simp [h]

/-- Every event produced by `emitAddedCbs` is an `added` invocation. -/
theorem emitAddedCbs_isAddedCb {α : Type} (l : List α) :
    ∀ x ∈ emitAddedCbs l, x.isAddedCb = true := by
  intro x hx
  simp only [emitAddedCbs, List.mem_map] at hx
  obtain ⟨m, _, rfl⟩ := hx
  rfl

/-- The operation `mergedInit` preserves the allocation invariant. -/
theorem mergedInv_init (s : MergedState) (i : Nat) (h : MergedInv s) :
    MergedInv (mergedInit s i) := by
  obtain ⟨hb, hp⟩ := h
  constructor
  · intro e he
    simp only [mergedInit] at he ⊢
    rcases List.mem_append.mp he with h1 | h1
    · exact Nat.lt_succ_of_lt (hb e h1)
    · simp only [List.mem_singleton] at h1
      subst h1
      exact Nat.lt_succ_self _
  · simp only [mergedInit]
    refine List.pairwise_append.mpr ⟨hp, List.pairwise_singleton _ _, ?_⟩
    intro a ha b hb'
    simp only [List.mem_singleton] at hb'
    subst hb'
    have := hb a ha
    show a.2.1 ≠ s.nextRef
    omega

/-- The operation `mergedSet` preserves the allocation invariant: it rewrites contents but
never a source reference. -/
theorem mergedInv_set (s : MergedState) (i : Nat) (u : List Nat)
    (h : MergedInv s) : MergedInv (mergedSet s i u) := by
  obtain ⟨hb, hp⟩ := h
  have hf : ∀ e : Nat × Nat × List Nat,
      (if e.1 == i then (e.1, e.2.1, mergeArraysNat e.2.2 u) else e).2.1 = e.2.1 := by
    intro e
    split <;> rfl
  constructor
  · intro e' he'
    simp only [mergedSet, List.mem_map] at he'
    obtain ⟨e, he, rfl⟩ := he'
    simp only [mergedSet]
    rw [hf e]
    exact hb e he
  · simp only [mergedSet]
    rw [List.pairwise_map]
    exact hp.imp (fun {a b} hab => by rw [hf a, hf b]; exact hab)

/-- The runner `mergedRun` preserves the allocation invariant. -/
theorem mergedInv_run (ops : List MergedOp) :
    ∀ s, MergedInv s → MergedInv (mergedRun s ops) := by
  induction ops with
  | nil => exact fun s h => h
  | cons op rest ih =>
    intro s h
    cases op with
    | init i => exact ih _ (mergedInv_init s i h)
    | set i u => exact ih _ (mergedInv_set s i u h)

/-- The uninitialized class state satisfies the allocation invariant. -/
theorem mergedInv_state0 : MergedInv mergedState0 := by
  constructor
  · intro e he
    simp [mergedState0] at he
  · exact List.Pairwise.nil

/-- Setting instance `i` leaves every other instance's entry untouched. -/
theorem mergedGet_set_ne (s : MergedState) (i j : Nat) (u : List Nat)
    (hij : i ≠ j) : mergedGet (mergedSet s i u) j = mergedGet s j := by
  simp only [mergedGet, mergedSet]
  have hfind : ∀ l : List (Nat × Nat × List Nat),
      (l.map (fun e => if e.1 == i then (e.1, e.2.1, mergeArraysNat e.2.2 u)
          else e)).find? (fun e => e.1 == j) =
        l.find? (fun e => e.1 == j) := by
    intro l
    induction l with
    | nil => rfl
    | cons e rest ih =>
      have hfst : (if e.1 == i then (e.1, e.2.1, mergeArraysNat e.2.2 u)
          else e).1 = e.1 := by
        split <;> rfl
      by_cases hj : e.1 = j
      · have hne : (e.1 == i) = false := by
          rw [beq_eq_false_iff_ne]
          omega
        simp only [List.map_cons]
        rw [List.find?_cons_of_pos _ (by rw [hfst]; simpa using hj),
          List.find?_cons_of_pos _ (by simpa using hj)]
        simp [hne]
      · simp only [List.map_cons]
        rw [List.find?_cons_of_neg _ (by rw [hfst]; simpa using hj),
          List.find?_cons_of_neg _ (by simpa using hj)]
        exact ih
  rw [hfind]

/-! ## Claim theorems -/

/-- Claim C1 (code bug): `mergeArrays` is documented to make the first array
"end up looking exactly like the second", and the spec requires every surviving
element of O to have a match in U; but the removal pass walks the live array,
so merging O = [1, 2] with U = [] under the default comparator removes 1, shifts
2 down, reads past it, and leaves [2] — a surviving element with no match in
the empty update array. -/
theorem mergeArrays_removal_skips_elements :
    mergeArraysNat [1, 2] [] = [2] ∧ mergeArraysNat [1, 2] [] ≠ [] := by
  constructor
  · rfl
  · decide

/-- Claim C5 (code bug): setting the joined view to `""` on an underlying array
["a", "b"] merges against `[]`, but the live-iteration removal pass leaves
["b"], so the underlying array does not become empty and a subsequent get
returns "b", not "". -/
theorem joinedSet_empty_string_not_reset :
    joinedSet "," ["a", "b"] (some "") [] = (["b"], "b") ∧
    (joinedSet "," ["a", "b"] (some "") []).1 ≠ [] ∧
    joinedGet "," (some (joinedSet "," ["a", "b"] (some "") []).1) ≠ some "" := by
  refine ⟨rfl, by decide, by decide⟩

/-- Claim C6: for every set of the joined view with a valid (absent or string)
value, the setter's return value is the separator-join of the merge function's
result on (existing array, newItems) — derived from the merged result, not the
input string: setting "a,a" on an empty array returns "a". -/
theorem joinedSet_returns_join_of_merge
    (mergeFn : List String → List String → List String) (sep : String)
    (oldItems : List String) (value : Option String) (defaultValue : List String) :
    (joinedSetWith mergeFn sep oldItems value defaultValue).2 =
      String.intercalate sep (mergeFn oldItems (newItemsOf sep value defaultValue)) ∧
    (joinedSet "," [] (some "a,a") []).2 = "a" ∧ ("a" : String) ≠ "a,a" := by
  refine ⟨rfl, by decide, by decide⟩

/-- Claim C3 (code bug): replacing the dependent array 0 = [1] — whose
mutation hook was registered at attach with the fresh object-literal target
100 — by array 1 = [2] runs `previousArray.removeArrayObserver()` first and
`addArrayObserver` last, but the no-argument removal matches only target-less
registrations, so the old array's hook survives the teardown: afterwards both
arrays carry a registered hook, and the claimed at-most-one-watched-array
invariant fails — the deregistration the claim requires never takes effect. -/
theorem replacement_leaves_old_hook_registered :
    (observeDependentArray (some ⟨0, [1]⟩) (some ⟨1, [2]⟩) true 101).2 =
      [ObsEvent.removeObserverCall 0, ObsEvent.removedCb 1 (some 0),
        ObsEvent.addedCb 2 none, ObsEvent.register 1 101] ∧
    applyEvents [(0, some 100)]
        (observeDependentArray (some ⟨0, [1]⟩) (some ⟨1, [2]⟩) true 101).2 =
      [(0, some 100), (1, some 101)] ∧
    ¬((applyEvents [(0, some 100)]
        (observeDependentArray (some ⟨0, [1]⟩) (some ⟨1, [2]⟩) true 101).2).length
      ≤ 1) := by
  refine ⟨rfl, rfl, by decide⟩

/-- Claim C4 counterexample: attaching to a dependent key holding the one
element array [10] does not pass `(element, index)` to `added`: the call site
`observers.added.call(this, member)` passes only the element, so the event is
`addedCb 10 none` and not `addedCb 10 (some 0)` as the claim requires. -/
theorem attach_added_passes_no_index :
    (observeDependentArray (none : Option (ArrVal Nat)) (some ⟨0, [10]⟩) true 8).2 ≠
      [ObsEvent.addedCb 10 (some 0), ObsEvent.register 0 8] ∧
    (observeDependentArray (none : Option (ArrVal Nat)) (some ⟨0, [10]⟩) true 8).2 =
      [ObsEvent.addedCb 10 none, ObsEvent.register 0 8] := by
  refine ⟨by decide, rfl⟩

/-- Claim C4 (amended): attaching at owner initialization to a dependent key
holding an array of n elements invokes `added` exactly n times, once per
element in index order, passing the element as the only argument, and all of
it before the array observer is registered — hence before any
mutation-triggered notification. -/
theorem attach_added_once_per_element (elems : List Nat) (r t : Nat) :
    (observeDependentArray none (some ⟨r, elems⟩) true t).2.filter
        ObsEvent.isAddedCb =
      elems.map (fun m => ObsEvent.addedCb m none) ∧
    (∀ i j (hi : i < (observeDependentArray none (some ⟨r, elems⟩) true t).2.length)
        (hj : j < (observeDependentArray none (some ⟨r, elems⟩) true t).2.length),
      (((observeDependentArray none (some ⟨r, elems⟩) true t).2)[i]).isAddedCb = true →
      (((observeDependentArray none (some ⟨r, elems⟩) true t).2)[j]).isRegister = true →
      i < j) := by
  have hE : (observeDependentArray none (some ⟨r, elems⟩) true t).2 =
      emitAddedCbs elems ++ [ObsEvent.register r t] := by
    simp [observeDependentArray]
  have hA : ∀ x ∈ emitAddedCbs (α := Nat) elems, ObsEvent.isRegister x = false := by
    intro x hx
    have := emitAddedCbs_isAddedCb elems x hx
    cases x <;> simp_all [ObsEvent.isAddedCb, ObsEvent.isRegister]
  have hB : ∀ x ∈ [ObsEvent.register (α := Nat) r t], ObsEvent.isAddedCb x = false := by
    intro x hx
    simp only [List.mem_singleton] at hx
    simp [hx, ObsEvent.isAddedCb]
  constructor
  · rw [hE, List.filter_append,
      List.filter_eq_self.mpr (emitAddedCbs_isAddedCb elems),
      List.filter_eq_nil_iff.mpr (fun x hx => by simp [hB x hx]),
      List.append_nil]
    rfl
  · intro i j hi hj hai hrj
    simp only [hE] at hi hj hai hrj
    exact index_lt_of_append ObsEvent.isAddedCb ObsEvent.isRegister _ _
      hA hB i j hi hj hai hrj

/-- Witness for Claim C4's amended theorem at the attach to [5, 6]: the added
invocations are exactly `added 5` then `added 6` (element only), and the added
invocation at event 0 precedes the registration at event 2. -/
theorem attach_added_once_per_element_witness :
    (observeDependentArray none (some ⟨7, [5, 6]⟩) true 9).2.filter
        ObsEvent.isAddedCb =
      [ObsEvent.addedCb 5 none, ObsEvent.addedCb 6 none] ∧ (0 : Nat) < 2 := by
  have h := attach_added_once_per_element [5, 6] 7 9
  exact ⟨h.1, h.2 0 2 (by decide) (by decide) (by decide) (by decide)⟩

/-- Claim C2 (amended, primary `arrayMemberObserver`): the notifications of a
single mutation are exactly one `removed` per element of the pre-mutation slice
`[start, start + removedCount)` (indexed from `start`), then exactly one `added`
per element of the post-mutation slice `[start, start + addedCount)`, and every
`removed` notification strictly precedes every `added` notification. -/
theorem singleMutationEvents_removed_before_added
    (pre post : List Nat) (start rc ac : Nat) :
    (singleMutationEvents pre post start rc ac).filter Notification.isRemoved =
      emitRemoved (jsSlice pre start (start + rc)) start ∧
    (singleMutationEvents pre post start rc ac).filter Notification.isAdded =
      emitAdded (jsSlice post start (start + ac)) start ∧
    ∀ i j (hi : i < (singleMutationEvents pre post start rc ac).length)
        (hj : j < (singleMutationEvents pre post start rc ac).length),
      ((singleMutationEvents pre post start rc ac)[i]).isRemoved = true →
      ((singleMutationEvents pre post start rc ac)[j]).isAdded = true → i < j := by
  have hW := arrayWillChange_eq pre start rc
  have hD := arrayDidChange_eq post start rc ac
  have hremA : ∀ x ∈ arrayWillChange pre start rc true, x.isRemoved = true := by
    rw [hW]; exact emitRemoved_isRemoved _ _
  have haddB : ∀ x ∈ arrayDidChange post start rc ac true, x.isAdded = true := by
    rw [hD]; exact emitAdded_isAdded _ _
  have hnotaddA : ∀ x ∈ arrayWillChange pre start rc true, x.isAdded = false := by
    intro x hx
    have := hremA x hx
    rw [isAdded_eq_not_isRemoved, this]
    rfl
  have hnotremB : ∀ x ∈ arrayDidChange post start rc ac true, x.isRemoved = false := by
    intro x hx
    have h1 := haddB x hx
    cases x with
    | removed item idx => simp [Notification.isAdded] at h1
    | added item idx => rfl
  refine ⟨?_, ?_, ?_⟩
  · rw [singleMutationEvents, List.filter_append,
      List.filter_eq_self.mpr (fun x hx => hremA x hx),
      List.filter_eq_nil_iff.mpr (fun x hx => by simp [hnotremB x hx]), hW,
      List.append_nil]
  · rw [singleMutationEvents, List.filter_append,
      List.filter_eq_nil_iff.mpr (fun x hx => by simp [hnotaddA x hx]),
      List.filter_eq_self.mpr (fun x hx => haddB x hx), hD,
      List.nil_append]
  · intro i j hi hj hri haj
    exact index_lt_of_append Notification.isRemoved Notification.isAdded
      (arrayWillChange pre start rc true) (arrayDidChange post start rc ac true)
      hnotaddA hnotremB i j hi hj hri haj

/-- Witness for Claim C2's amended theorem: at the mutation that removes
element 30 at index 2 of [10, 20, 30] and inserts 40 there, the removed
notification (index 0 of the event list) precedes the added notification
(index 1). -/
theorem singleMutationEvents_removed_before_added_witness :
    (singleMutationEvents [10, 20, 30] [10, 20, 40] 2 1 1).filter
        Notification.isRemoved =
      emitRemoved (jsSlice [10, 20, 30] 2 (2 + 1)) 2 ∧ (0 : Nat) < 1 := by
  have h := singleMutationEvents_removed_before_added [10, 20, 30] [10, 20, 40] 2 1 1
  exact ⟨h.1, h.2.2 0 1 (by decide) (by decide) (by decide) (by decide)⟩

/-- Claim C2 counterexample: the second variant's handlers, invoked by Ember
with `(array, start, removedCount, addedCount)`, fire two removed notifications
for the mutation (pre = [10, 20, 30], start = 0, removedCount = 1,
addedCount = 2), not one per element of the pre-mutation slice [0, 1): the
variant's swapped binder names make it slice with the added count as the end
index. -/
theorem singleMutationEventsV2_miscounts :
    (singleMutationEventsV2 [10, 20, 30] [40, 50, 20, 30] 0 1 2).countP
        Notification.isRemoved = 2 ∧
    ¬((singleMutationEventsV2 [10, 20, 30] [40, 50, 20, 30] 0 1 2).countP
        Notification.isRemoved =
      (jsSlice [10, 20, 30] 0 (0 + 1)).length) := by
  refine ⟨rfl, by decide⟩

/-- Claim C9: for `mergedArray` properties installed via `instanceScoped`,
closure state is per instance: after any sequence of instance initializations
and sets, two distinct initialized instances hold distinct source-array
references, and a set on one instance leaves the other instance's array
unchanged. -/
theorem mergedArray_state_is_per_instance (ops : List MergedOp)
    (i j ri rj : Nat) (ei ej u : List Nat) (hij : i ≠ j)
    (hi : mergedGet (mergedRun mergedState0 ops) i = some (ri, ei))
    (hj : mergedGet (mergedRun mergedState0 ops) j = some (rj, ej)) :
    ri ≠ rj ∧
      mergedGet (mergedSet (mergedRun mergedState0 ops) i u) j = some (rj, ej) := by
  have hinv := mergedInv_run ops mergedState0 mergedInv_state0
  obtain ⟨eI, hfI, heI⟩ := Option.map_eq_some'.mp hi
  obtain ⟨eJ, hfJ, heJ⟩ := Option.map_eq_some'.mp hj
  have hmemI := List.mem_of_find?_eq_some hfI
  have hmemJ := List.mem_of_find?_eq_some hfJ
  have hiI : eI.1 = i := by simpa using List.find?_some hfI
  have hjJ : eJ.1 = j := by simpa using List.find?_some hfJ
  constructor
  · have hne : eI ≠ eJ := by
      intro h
      apply hij
      rw [← hiI, ← hjJ, h]
    have hsym : Symmetric (fun a b : Nat × Nat × List Nat => a.2.1 ≠ b.2.1) :=
      fun {a b} h => Ne.symm h
    have hR := List.Pairwise.forall hsym hinv.2 hmemI hmemJ hne
    intro h
    apply hR
    rw [heI, heJ, h]
  · rw [mergedGet_set_ne _ i j u hij]
    rw [mergedGet, hfJ]
    simpa using heJ

/-- Witness for Claim C9's theorem: after initializing instances 0 and 1,
instance 0's source is array 0 and instance 1's is array 1 — distinct — and a
set of [3] on instance 0 leaves instance 1's entry unchanged. -/
theorem mergedArray_state_is_per_instance_witness :
    (0 : Nat) ≠ 1 ∧
      mergedGet
        (mergedSet (mergedRun mergedState0 [MergedOp.init 0, MergedOp.init 1]) 0 [3])
        1 = some (1, []) :=
  mergedArray_state_is_per_instance [MergedOp.init 0, MergedOp.init 1]
    0 1 0 1 [] [] [3] (by decide) (by decide) (by decide)

/-- Claim C7 (amended, primary `nestedArrayObserver`): when an inner array is
added to the outer array, the bound observer is registered as a content-level
observer on the inner array and then invoked exactly once, synchronously, at
attach time: among the events there is exactly one registration and exactly
one invocation, and the registration precedes the invocation. -/
theorem nestedAdded_registers_then_invokes
    (cache : List CacheEntry) (self target obsId : Nat) :
    (nestedAdded cache self target obsId).2.countP NestedEvent.isInvoke = 1 ∧
    (nestedAdded cache self target obsId).2.countP NestedEvent.isRegister = 1 ∧
    ∃ i j, i < j ∧
      (nestedAdded cache self target obsId).2.get? i =
        some (.register target obsId) ∧
      (nestedAdded cache self target obsId).2.get? j = some (.invoke obsId) := by
  refine ⟨rfl, rfl, 0, 1, by omega, rfl, rfl⟩

/-- Claim C7 counterexample: the second variant's `added` callback, attaching
the inner array 1 with bound function 0 to an empty cache, emits no invocation
at all — the claim's "invoked exactly once at attach time" fails for it. -/
theorem nestedAddedV2_never_invokes :
    (nestedAddedV2 [] 1 0).2.countP NestedEvent.isInvoke = 0 ∧
    ¬((nestedAddedV2 [] 1 0).2.countP NestedEvent.isInvoke = 1) := by
  refine ⟨rfl, by decide⟩

/-- Claim C8: when the primary `removed` callback fires for an inner array with
no matching cache entry (no entry matches both target and owner), the operation
is a silent no-op: no error is raised, no observer is deregistered, and the
cache is unchanged. -/
theorem nestedRemoved_missing_entry_noop (cache : List CacheEntry)
    (self target : Nat)
    (h : cache.find? (fun item => item.target == target && item.parent == self) =
      none) :
    nestedRemoved cache self target = .ok (cache, []) := by
  simp [nestedRemoved, h]

/-- Witness for Claim C8's theorem: a cache holding an entry for owner 0 and
target 5 has no entry matching target 7, so removing target 7 returns the cache
unchanged with no events. -/
theorem nestedRemoved_missing_entry_noop_witness :
    nestedRemoved [⟨0, 5, 2⟩] 0 7 = .ok ([⟨0, 5, 2⟩], []) :=
  nestedRemoved_missing_entry_noop [⟨0, 5, 2⟩] 0 7 (by decide)

/-- Claim C10: `joinedArray`'s cached default lives in the macro's closure
shared by every instance of the class: whatever accessor runs (`get` or `set`,
on any instance), once `defaultValue` holds a reference it keeps it forever
(assigned at most once), every absent-value `set` on any instance then merges
against that first-captured array reference, and while it is unassigned any
`get` or `set` assigns it. -/
theorem joinedArray_default_captured_once (sep : String) (s : JoinedState)
    (op : JoinedOp) (r : Nat) :
    (s.defaultValue = some r →
      ((joinedStep sep s op).1.defaultValue = some r ∧
        ∀ i, op = .set i none →
          (joinedStep sep s op).2 =
            [JoinedEvent.mergeCall (UpdateSource.cachedDefault r)])) ∧
    (s.defaultValue = none →
      ((joinedStep sep s op).1.defaultValue).isSome = true) := by
  cases op with
  | get i =>
    refine ⟨fun h => ⟨?_, ?_⟩, fun h => ?_⟩
    · simp [joinedStep, captureDefault, h]
    · intro i' hop
      exact absurd hop (by simp)
    · cases hl : lookupDep s i with
      | some r2 => simp [joinedStep, captureDefault, h, hl]
      | none => simp [joinedStep, captureDefault, h, hl]
  | set i v =>
    refine ⟨fun h => ⟨?_, ?_⟩, fun h => ?_⟩
    · cases hl : lookupDep s i with
      | some oref => simp [joinedStep, captureDefault, h, hl]
      | none => simp [joinedStep, captureDefault, h, hl]
    · intro i' hop
      injection hop with h1 h2
      subst h1
      subst h2
      cases hl : lookupDep s i with
      | some oref => simp [joinedStep, captureDefault, h, hl]
      | none => simp [joinedStep, captureDefault, h, hl]
    · have hdef : ((captureDefault s i).1).defaultValue.isSome = true := by
        simp only [captureDefault, h]
        cases hl2 : lookupDep s i with
        | some r2 => simp
        | none => simp
      cases hl3 : lookupDep (captureDefault s i).1 i with
      | some oref =>
        simp only [joinedStep, hl3]
        exact hdef
      | none =>
        simp only [joinedStep, hl3]
        exact hdef

/-- Witness for Claim C10's theorem: with the shared default already captured
as array 3, an absent-value set by instance 5 keeps the default at 3 and merges
against array 3. -/
theorem joinedArray_default_captured_once_witness :
    (joinedStep "," ⟨some 3, [], [], 4⟩ (JoinedOp.set 5 none)).1.defaultValue =
      some 3 ∧
    (joinedStep "," ⟨some 3, [], [], 4⟩ (JoinedOp.set 5 none)).2 =
      [JoinedEvent.mergeCall (UpdateSource.cachedDefault 3)] := by
  have h := joinedArray_default_captured_once "," ⟨some 3, [], [], 4⟩
    (JoinedOp.set 5 none) 3
  have h1 := h.1 rfl
  exact ⟨h1.1, h1.2 5 rfl⟩

end EmberArrayObservers
